import Mathlib

/-!
Verification development for `src/MindShift.py`.

The Python program is shallowly embedded: Python strings are `List Char`
(for the text-normalisation component) or `String` (for JSON object keys and
scalar values), JSON/Python runtime values are the inductive `PyVal`,
Python dictionaries are association lists with unique keys (as produced by
`json.loads`, which keeps one binding per key), and code that can raise an
exception is embedded in `Except PyErr`.  External collaborators (the
`requests`/BeautifulSoup fetch-and-parse step, the OpenAI call, the NLTK
tokenizer and stop-word corpus, and the Streamlit rendering layer) are
modelled at their interface, exactly as the spec scopes them out; the
repository's own logic (validation filters, scoring loops, the performance
band computation, and the session-state bookkeeping of the quiz tab) is
translated statement by statement from the source.
-/

namespace MindShift

/-- Python runtime / JSON values as they occur in this program: strings,
booleans, integers, `None`, lists and string-keyed dictionaries (JSON object
keys are always strings). -/
inductive PyVal where
  | str : String → PyVal
  | bool : Bool → PyVal
  | int : Int → PyVal
  | none : PyVal
  | list : List PyVal → PyVal
  | dict : List (String × PyVal) → PyVal

mutual

/-- Python `==` on the embedded values.  `None` equals only `None`; `bool`
is an `int` subclass, so `True == 1` holds; containers compare elementwise.
(Python dict equality is key-order-insensitive; as the embedded dictionaries
carry unique keys in a fixed order and no claim compares two dictionaries,
the order-sensitive elementwise comparison is adequate.) -/
def pyEq : PyVal → PyVal → Bool
  | .str a, .str b => a == b
  | .bool a, .bool b => a == b
  | .int a, .int b => a == b
  | .bool a, .int b => (if a then (1 : Int) else 0) == b
  | .int a, .bool b => a == (if b then (1 : Int) else 0)
  | .none, .none => true
  | .list as, .list bs => pyEqList as bs
  | .dict as, .dict bs => pyEqDict as bs
  | _, _ => false

/-- Elementwise Python `==` on lists. -/
def pyEqList : List PyVal → List PyVal → Bool
  | [], [] => true
  | a :: as, b :: bs => pyEq a b && pyEqList as bs
  | _, _ => false

/-- Elementwise Python `==` on dictionary bindings. -/
def pyEqDict : List (String × PyVal) → List (String × PyVal) → Bool
  | [], [] => true
  | (k1, v1) :: as, (k2, v2) :: bs => k1 == k2 && pyEq v1 v2 && pyEqDict as bs
  | _, _ => false

end

/-- Dictionary lookup that cannot fail: `some v` when `q` is a dict binding
`k`, `Option.none` otherwise.  Used to state properties; the raising
subscript is `pySubscript` below. -/
def pyDictGet (q : PyVal) (k : String) : Option PyVal :=
  match q with
  | .dict fs => fs.lookup k
  | _ => Option.none

/-- Python `k in q` for a dictionary `q` and a string literal `k`
(key membership). -/
def pyHasKey (q : PyVal) (k : String) : Bool :=
  match q with
  | .dict fs => fs.any (fun kv => kv.1 == k)
  | _ => false

/-- Exceptions that the embedded fragments can raise: `KeyError` from a
dictionary subscript and `TypeError` from subscripting or membership-testing
a value of the wrong type. -/
inductive PyErr where
  | keyError : String → PyErr
  | typeError : PyErr

/-- Python subscript `q[k]` with a string key: raises `TypeError` when `q`
is not a dictionary and `KeyError` when the key is absent. -/
def pySubscript (q : PyVal) (k : String) : Except PyErr PyVal :=
  match q with
  | .dict fs =>
    match fs.lookup k with
    | some v => Except.ok v
    | Option.none => Except.error (PyErr.keyError k)
  | _ => Except.error PyErr.typeError

/-- Leading-match test: the first list read character by character at the
head of the second. -/
def leadMatch : List Char → List Char → Bool
  | [], _ => true
  | _ :: _, [] => false
  | a :: as, b :: bs => a == b && leadMatch as bs

/-- Occurrence test of one character list inside another, at any
position. -/
def subSeq : List Char → List Char → Bool
  | needle, [] => needle.isEmpty
  | needle, c :: cs => leadMatch needle (c :: cs) || subSeq needle cs

/-- Substring test used by Python's `needle in haystack` on strings (the
empty string is a substring of everything). -/
def strContains (needle hay : String) : Bool :=
  subSeq needle.data hay.data

/-- Python membership `x in y`: key membership for dictionaries, element
membership for lists, substring test for strings (whose left operand must be
a string), and `TypeError` for non-container right operands. -/
def pyMem (x y : PyVal) : Except PyErr Bool :=
  match y with
  | .dict fs => Except.ok (fs.any (fun kv => pyEq x (.str kv.1)))
  | .list xs => Except.ok (xs.any (fun v => pyEq x v))
  | .str s =>
    match x with
    | .str xs => Except.ok (strContains xs s)
    | _ => Except.error PyErr.typeError
  | _ => Except.error PyErr.typeError

/-- Recogniser for Python `isinstance(v, bool)`. -/
def isBool : PyVal → Bool
  | .bool _ => true
  | _ => false

/-- Validity check applied by `fetch_questions` (src/MindShift.py lines
84-94) to each parsed entry: `isinstance(question, dict)`, `"mcq" in
question`, `isinstance(question["mcq"], str)`, `"options" in question`,
`isinstance(question["options"], dict)`, `"correct" in question`, and
`question["correct"] in question["options"]` (dictionary membership, i.e.
equality with some key).  Every subscript is guarded by the preceding
checks, so the conjunction is a total boolean. -/
def preValid (q : PyVal) : Bool :=
  match q with
  | .dict fs =>
    match fs.lookup "mcq" with
    | some (.str _) =>
      match fs.lookup "options" with
      | some (.dict opts) =>
        match fs.lookup "correct" with
        | some c => opts.any (fun kv => pyEq c (.str kv.1))
        | Option.none => false
      | _ => false
    | _ => false
  | _ => false

/-- User-facing signals emitted by the two generator functions:
`st.warning("No valid questions were generated...")`, the
`st.error("Error parsing JSON from OpenAI...")` branch, and the generic
`st.error(f"Error generating ...: {e}")` branch of the outer handler. -/
inductive UiMsg where
  | warning : UiMsg
  | errorJson : UiMsg
  | errorGeneric : UiMsg

/-- Second disjunct of the per-entry test of `generate_post_learning_quiz`
(src/MindShift.py lines 138-142): `question["type"] == "true_false" and
"correct" in question and isinstance(question["correct"], bool)`.  By the
time it runs, `question["type"]` has already been subscripted once, so the
repeated subscript cannot fail. -/
def postTFBranch (q : PyVal) : Except PyErr Bool :=
  match pySubscript q "type" with
  | Except.error e => Except.error e
  | Except.ok t =>
    if pyEq t (.str "true_false") then
      if pyHasKey q "correct" then
        match pySubscript q "correct" with
        | Except.error e => Except.error e
        | Except.ok c => Except.ok (isBool c)
      else Except.ok false
    else Except.ok false

/-- Per-entry test of the post-learning filter (src/MindShift.py lines
130-143), with Python's evaluation order and short-circuiting made explicit:
`(question["type"] == "mcq" and "options" in question and
question["correct"] in question["options"]) or (question["type"] ==
"true_false" and "correct" in question and isinstance(question["correct"],
bool))`.  Unlike the pre-learning check, `question["type"]` and (in the
first disjunct) `question["correct"]` are subscripted without an existence
check, and the membership test runs against `question["options"]` whatever
its type, so this test can raise. -/
def postEntryCheck (q : PyVal) : Except PyErr Bool :=
  match pySubscript q "type" with
  | Except.error e => Except.error e
  | Except.ok t =>
    if pyEq t (.str "mcq") then
      if pyHasKey q "options" then
        match pySubscript q "correct" with
        | Except.error e => Except.error e
        | Except.ok c =>
          match pySubscript q "options" with
          | Except.error e => Except.error e
          | Except.ok o =>
            match pyMem c o with
            | Except.error e => Except.error e
            | Except.ok m => if m then Except.ok true else postTFBranch q
      else postTFBranch q
    else postTFBranch q

/-- The list comprehension of `generate_post_learning_quiz`: entries are
tested left to right and an exception from any test aborts the whole
comprehension. -/
def postFilterBatch : List PyVal → Except PyErr (List PyVal)
  | [] => Except.ok []
  | q :: rest =>
    match postEntryCheck q with
    | Except.error e => Except.error e
    | Except.ok b =>
      match postFilterBatch rest with
      | Except.error e => Except.error e
      | Except.ok r => Except.ok (if b then q :: r else r)

/-- Embedding of `fetch_questions` (src/MindShift.py lines 61-106) from the
point where the service response text is parsed: the argument is
`Except.error ()` when `json.loads` raises `JSONDecodeError` (the function
then reports an error and returns `[]`) and `Except.ok qs` when it yields a
list of entries (non-list parses, which would fail while iterating, are
outside the claims and not modelled).  The parsed entries are filtered by
`preValid`; an empty retained list triggers the warning message and is still
returned. -/
def fetch_questions (resp : Except Unit (List PyVal)) : List PyVal × Option UiMsg :=
  match resp with
  | Except.error _ => ([], some UiMsg.errorJson)
  | Except.ok qs =>
    let valid := qs.filter preValid
    (valid, if valid.isEmpty then some UiMsg.warning else Option.none)

/-- Embedding of `generate_post_learning_quiz` (src/MindShift.py lines
108-150) from the parse point.  A `JSONDecodeError` is reported and yields
`[]`; an exception raised by the filtering comprehension is not caught by
the inner `except json.JSONDecodeError` handler but by the outer
`except Exception` handler, which reports the generic error and returns
`[]`.  A successfully filtered batch is returned as is - this path emits no
warning even when the retained list is empty. -/
def generate_post_learning_quiz (resp : Except Unit (List PyVal)) :
    List PyVal × Option UiMsg :=
  match resp with
  | Except.error _ => ([], some UiMsg.errorJson)
  | Except.ok qs =>
    match postFilterBatch qs with
    | Except.ok valid => (valid, Option.none)
    | Except.error _ => ([], some UiMsg.errorGeneric)

/-- Fixed English stop-word set of `clean_text` (src/MindShift.py line 25).
The set is external data (the NLTK `stopwords` corpus); it is reproduced
here minus the apostrophe-bearing contraction forms, which can never match
the purely alphabetic tokens the program compares against it.  No proof in
this file depends on the particular contents of the list. -/
def stop_words : List (List Char) :=
  ([ "i", "me", "my", "myself", "we", "our", "ours", "ourselves", "you",
     "your", "yours", "yourself", "yourselves", "he", "him", "his",
     "himself", "she", "her", "hers", "herself", "it", "its", "itself",
     "they", "them", "their", "theirs", "themselves", "what", "which",
     "who", "whom", "this", "that", "these", "those", "am", "is", "are",
     "was", "were", "be", "been", "being", "have", "has", "had", "having",
     "do", "does", "did", "doing", "a", "an", "the", "and", "but", "if",
     "or", "because", "as", "until", "while", "of", "at", "by", "for",
     "with", "about", "against", "between", "into", "through", "during",
     "before", "after", "above", "below", "to", "from", "up", "down", "in",
     "out", "on", "off", "over", "under", "again", "further", "then",
     "once", "here", "there", "when", "where", "why", "how", "all", "any",
     "both", "each", "few", "more", "most", "other", "some", "such", "no",
     "nor", "not", "only", "own", "same", "so", "than", "too", "very", "s",
     "t", "can", "will", "just", "don", "should", "now", "d", "ll", "m",
     "o", "re", "ve", "y", "ain", "aren", "couldn", "didn", "doesn",
     "hadn", "hasn", "haven", "isn", "ma", "mightn", "mustn", "needn",
     "shan", "shouldn", "wasn", "weren", "won", "wouldn" ] : List String).map
    String.toList

/-- Characters that the modelled tokenizer keeps inside a token.  NLTK's
`word_tokenize` (external library code) is modelled as splitting the text
into maximal runs of alphanumeric characters; the punctuation tokens the
real tokenizer additionally emits are all discarded anyway by the
`word.isalpha()` filter of `clean_text`, so the two models agree on the
output of `clean_text`. -/
def isWordChar (c : Char) : Bool :=
  c.isAlphanum

/-- Chunks of `word_tokenize`: separator characters delimit chunks (and are
dropped); adjacent separators and text boundaries produce empty chunks,
which `tokenize` removes. -/
def rawSplit : List Char → List (List Char)
  | [] => [[]]
  | c :: cs =>
    if isWordChar c then
      match rawSplit cs with
      | [] => [[c]]
      | w :: ws => (c :: w) :: ws
    else
      [] :: rawSplit cs

/-- Model of `nltk.tokenize.word_tokenize`: the maximal alphanumeric runs
of the text, in order. -/
def tokenize (l : List Char) : List (List Char) :=
  (rawSplit l).filter (fun w => !w.isEmpty)

/-- Python `str.isalpha()`: non-empty and every character alphabetic
(restricted, like the rest of the character model, to ASCII). -/
def pyIsAlpha (w : List Char) : Bool :=
  !w.isEmpty && w.all Char.isAlpha

/-- Python `str.lower()`, characterwise (ASCII model). -/
def pyLower (l : List Char) : List Char :=
  l.map Char.toLower

/-- Python `" ".join(words)`. -/
def sjoin : List (List Char) → List Char
  | [] => []
  | [w] => w
  | w :: ws => w ++ ' ' :: sjoin ws

/-- Filter applied by `clean_text` to each token, in the source's order:
`word not in stop_words and word.isalpha()`. -/
def cleanKeep (w : List Char) : Bool :=
  !stop_words.contains w && pyIsAlpha w

/-- Embedding of `clean_text` (src/MindShift.py lines 23-29): lowercase the
text, tokenize it, drop stop-words and non-alphabetic tokens, and join the
survivors with single spaces. -/
def clean_text (text : List Char) : List Char :=
  sjoin ((tokenize (pyLower text)).filter cleanKeep)

/-- Interface view of one HTTP fetch-and-parse round trip of
`scrape_course`: the response status, and the list-item texts of the two
fixed structural regions, each `Option.none` when `soup.find` locates no
such region (BeautifulSoup itself is an external collaborator). -/
structure HttpResponse where
  status_code : Nat
  learnItems : Option (List (List Char))
  skillItems : Option (List (List Char))

/-- The scraper's output record: the two cleaned fragment lists
(`"What You'll Learn"` and `"Skills You'll Gain"`). -/
structure CourseContent where
  whatYoullLearn : List (List Char)
  skillsYoullGain : List (List Char)
deriving DecidableEq

/-- Embedding of `scrape_course` (src/MindShift.py lines 33-56): a non-200
status yields `(None, "Failed to fetch content")` - a fixed message, with no
further information; otherwise each region's items (empty when the region
is absent) are passed through `clean_text` and returned with no error. -/
def scrape_course (r : HttpResponse) : Option CourseContent × Option String :=
  if r.status_code ≠ 200 then
    (Option.none, some "Failed to fetch content")
  else
    (some ⟨(r.learnItems.getD []).map clean_text,
           (r.skillItems.getD []).map clean_text⟩, Option.none)

/-- Correct answer of a pre-learning question, as the scoring loop computes
it: `question["options"][question["correct"]]` (src/MindShift.py line 230).
`Option.none` stands for the `KeyError`/`TypeError` the source would raise;
questions retained by `preValid` always produce `some`. -/
def preCorrect (q : PyVal) : Option PyVal :=
  match pyDictGet q "options", pyDictGet q "correct" with
  | some o, some (.str k) => pyDictGet o k
  | _, _ => Option.none

/-- One iteration of the pre-learning scoring loop (src/MindShift.py lines
229-233) on the pair (index, question): the user's answer is looked up with
`selected_answers.get(idx)`, whose miss value `None` is compared against
the correct option text. -/
def preHit (ans : Nat → Option PyVal) (p : Nat × PyVal) : Bool :=
  match preCorrect p.2 with
  | some c => pyEq ((ans p.1).getD PyVal.none) c
  | Option.none => false

/-- Score of a pre-learning submission: the number of loop iterations that
increment `score`. -/
def scorePre (qs : List PyVal) (ans : Nat → Option PyVal) : Nat :=
  qs.enum.countP (preHit ans)

/-- One iteration of the post-learning scoring loop (src/MindShift.py lines
386-390): the recorded answer is compared against `question["correct"]`
directly - for an MCQ that is the raw key (such as `"a"`), not the option
text stored under it. -/
def postHit (ans : Nat → Option PyVal) (p : Nat × PyVal) : Bool :=
  match pyDictGet p.2 "correct" with
  | some c => pyEq ((ans p.1).getD PyVal.none) c
  | Option.none => false

/-- Score of a post-learning submission. -/
def scorePost (qs : List PyVal) (ans : Nat → Option PyVal) : Nat :=
  qs.enum.countP (postHit ans)

/-- Embedding of the performance-level derivation (src/MindShift.py lines
284-293).  The Python comparisons `user_score <= total_questions * 0.5` and
`user_score <= total_questions * 0.8` are modelled over `ℚ`: `0.5` is an
exact binary float and `total * 0.5` is exact for any realistic total;
`total * 0.8` rounds to the exact integer `4 * total / 5` whenever that
value is an integer (the relative error of the product is below half an
ulp), and otherwise sits within `1e-15 * total` of a value at distance at
least `0.2` from every integer, so comparison with the integer score is
unchanged.  The rational model therefore decides every comparison exactly
as the float code does. -/
def performance_level (score total : Nat) : String :=
  if (score : ℚ) ≤ (total : ℚ) * 0.5 then "Beginner"
  else if (score : ℚ) ≤ (total : ℚ) * 0.8 then "Intermediate"
  else "Advanced"

/-- One entry of the session's quiz history (src/MindShift.py lines
264-270): submission date, score and question count. -/
structure ScoreResult where
  date : Nat
  score : Nat
  total : Nat
deriving DecidableEq

/-- Session state touched by the pre-learning quiz tab: `current_quiz`,
`selected_answers` (a dictionary from question index to the recorded
answer; `Option.none` models an absent key), the `quiz_submitted` guard,
`last_quiz_score`, and the `quizzes` history. -/
structure Session where
  current_quiz : Option (List PyVal)
  selected_answers : Nat → Option PyVal
  quiz_submitted : Bool
  last_quiz_score : Option Nat
  quizzes : List ScoreResult

/-- The discrete user action that triggered a script rerun of the quiz tab:
clicking `Generate Quiz` (carrying the parsed batch the generator
returned), clicking `Submit Answers`, or any other interaction (Streamlit
reruns the whole script on every widget event). -/
inductive Event where
  | generate : List PyVal → Event
  | submit : Event
  | idle : Event

/-- Recogniser for the submit event. -/
def isSubmit : Event → Bool
  | Event.submit => true
  | _ => false

/-- One full script run of the pre-learning quiz tab (src/MindShift.py
lines 190-270), as a state transformer.  `sel idx` is the value the radio
widget for question `idx` reports during this run.  Phases, in source
order: the `Generate Quiz` handler (lines 195-207, a no-op when the
filtered batch is empty); if a non-empty `current_quiz` exists, the
rendering loop that records every question's radio value (lines 210-221);
the guarded `Submit Answers` handler (lines 223-235); and the results block
(lines 238-270), which runs on every rerun while `quiz_submitted` is set
and ends by appending a `ScoreResult` to `quizzes`.  The display
subscripts of lines 212-213 and 253 act on `preValid`-filtered questions
and cannot fail; `last_quiz_score` is always set when `quiz_submitted` is
(the two are only assigned together), so the `getD 0` default of line 240's
lookup is never exercised from a reachable state. -/
def stepQuizTab (today : Nat) (s : Session) (sel : Nat → PyVal) (e : Event) :
    Session :=
  let s1 : Session :=
    match e with
    | Event.generate raw =>
      let qs := raw.filter preValid
      if qs.isEmpty then s
      else { s with current_quiz := some qs,
                    selected_answers := fun _ => Option.none,
                    quiz_submitted := false }
    | _ => s
  match s1.current_quiz with
  | some qs =>
    if qs.isEmpty then s1
    else
      let s2 : Session :=
        { s1 with selected_answers :=
            fun i => if i < qs.length then some (sel i) else s1.selected_answers i }
      let s3 : Session :=
        if !s2.quiz_submitted && isSubmit e then
          { s2 with quiz_submitted := true,
                    last_quiz_score := some (scorePre qs s2.selected_answers) }
        else s2
      if s3.quiz_submitted then
        { s3 with quizzes :=
            s3.quizzes ++ [⟨today, s3.last_quiz_score.getD 0, qs.length⟩] }
      else s3
  | Option.none => s1

/-- Statement of the spec's MCQ validity invariant, written from the spec's
words for the refinement claims: the entry's `options` field is a
dictionary and its `correct` field is a key of that dictionary. -/
def mcqWellFormed (q : PyVal) : Prop :=
  ∃ opts k, pyDictGet q "options" = some (.dict opts) ∧
    pyDictGet q "correct" = some (.str k) ∧ ∃ v, (k, v) ∈ opts

/-- Statement of the spec's TrueFalse validity invariant: the entry's
`correct` field is a boolean. -/
def tfWellFormed (q : PyVal) : Prop :=
  ∃ b, pyDictGet q "correct" = some (.bool b)

/-- Typing assumption under which unanswered indices are analysed: whenever
the question yields a correct answer, the pre-learning one
(`options[correct]`, the option text) is a string, and the post-learning
one (the raw `correct` field) is a string or a boolean - exactly the shapes
the claims speak about. -/
def answerTyped (q : PyVal) : Bool :=
  (match preCorrect q with
   | some (.str _) => true
   | Option.none => true
   | _ => false) &&
  (match pyDictGet q "correct" with
   | some (.str _) => true
   | some (.bool _) => true
   | Option.none => true
   | _ => false)

/-- Example entry: a well-formed post-learning TrueFalse question. -/
def exTF : PyVal :=
  .dict [("type", .str "true_false"), ("question", .str "q"),
         ("correct", .bool true)]

/-- Example entry: malformed, its `type` field is missing altogether. -/
def exNoType : PyVal :=
  .dict [("question", .str "x")]

/-- Example entry: malformed but harmless, its `type` is an unknown tag. -/
def exEssay : PyVal :=
  .dict [("type", .str "essay")]

/-- Example entry: a post-learning `mcq` entry whose `options` field is the
string `"abcd"` rather than a mapping; Python's substring membership makes
it pass the post-learning filter. -/
def exStrOpts : PyVal :=
  .dict [("type", .str "mcq"), ("question", .str "q"),
         ("options", .str "abcd"), ("correct", .str "a")]

/-- Example entry: a well-formed post-learning MCQ whose correct key is
`"a"` and whose correct option text is `"Paris"`. -/
def exPostMCQ : PyVal :=
  .dict [("type", .str "mcq"), ("question", .str "capital?"),
         ("options", .dict [("a", .str "Paris"), ("b", .str "London")]),
         ("correct", .str "a")]

/-- Example entry: the same question in the pre-learning schema. -/
def exPreMCQ : PyVal :=
  .dict [("mcq", .str "capital?"),
         ("options", .dict [("a", .str "Paris"), ("b", .str "London")]),
         ("correct", .str "a")]

/-- Example answer record: question 0 answered with the option text
`"Paris"`. -/
def exAnsParis : Nat → Option PyVal :=
  fun i => if i = 0 then some (.str "Paris") else Option.none

/-- Example radio-selection function: every widget reports `"Paris"`. -/
def exSel : Nat → PyVal :=
  fun _ => .str "Paris"

/-- Example session state: `exPreMCQ` generated and already submitted once
(score 1 of 1), with one history entry recorded by the submitting run. -/
def exSubmitted : Session :=
  { current_quiz := some [exPreMCQ],
    selected_answers := exAnsParis,
    quiz_submitted := true,
    last_quiz_score := some 1,
    quizzes := [⟨0, 1, 1⟩] }

/-! ## Helper lemmas -/

theorem pyEq_str_right {c : PyVal} {k : String} (h : pyEq c (.str k) = true) :
    c = .str k := by
  cases c <;> simp_all [pyEq]

theorem pyEq_none_left_str (s : String) : pyEq PyVal.none (.str s) = false := by
  simp [pyEq]

theorem pyEq_none_left_bool (b : Bool) : pyEq PyVal.none (.bool b) = false := by
  simp [pyEq]

theorem pySubscript_ok_iff {q : PyVal} {k : String} {v : PyVal} :
    pySubscript q k = Except.ok v ↔ pyDictGet q k = some v := by
  cases q <;> simp [pySubscript, pyDictGet]
  rename_i fs
  cases fs.lookup k <;> simp

theorem postFilterBatch_ok {qs v : List PyVal}
    (h : postFilterBatch qs = Except.ok v) :
    v.Sublist qs ∧ ∀ q ∈ v, postEntryCheck q = Except.ok true := by
  induction qs generalizing v with
  | nil =>
    simp only [postFilterBatch, Except.ok.injEq] at h
    subst h; simp
  | cons q rest ih =>
    rw [postFilterBatch] at h
    cases hb : postEntryCheck q with
    | error e => simp only [hb] at h; exact Except.noConfusion h
    | ok b =>
      simp only [hb] at h
      cases hr : postFilterBatch rest with
      | error e => simp only [hr] at h; exact Except.noConfusion h
      | ok r =>
        simp only [hr, Except.ok.injEq] at h
        obtain ⟨hsub, hmem⟩ := ih hr
        cases b with
        | true =>
          subst h; rw [if_pos rfl]
          refine ⟨hsub.cons₂ q, ?_⟩
          intro x hx
          rcases List.mem_cons.mp hx with hx | hx
          · subst hx; exact hb
          · exact hmem x hx
        | false =>
          subst h; rw [if_neg (by simp)]
          exact ⟨hsub.cons q, hmem⟩

theorem postTFBranch_true {q : PyVal} (h : postTFBranch q = Except.ok true) :
    pyDictGet q "type" = some (.str "true_false") ∧ tfWellFormed q := by
  rw [postTFBranch] at h
  cases ht : pySubscript q "type" with
  | error e => simp only [ht] at h; exact Except.noConfusion h
  | ok t =>
    simp only [ht] at h
    by_cases htf : pyEq t (.str "true_false") = true
    · rw [if_pos htf] at h
      have ht' : t = .str "true_false" := pyEq_str_right htf
      subst ht'
      refine ⟨pySubscript_ok_iff.mp ht, ?_⟩
      by_cases hk : pyHasKey q "correct" = true
      · rw [if_pos hk] at h
        cases hc : pySubscript q "correct" with
        | error e => simp only [hc] at h; exact Except.noConfusion h
        | ok c =>
          simp only [hc, Except.ok.injEq] at h
          cases c with
          | bool b => exact ⟨b, pySubscript_ok_iff.mp hc⟩
          | str s => simp [isBool] at h
          | int n => simp [isBool] at h
          | none => simp [isBool] at h
          | list l => simp [isBool] at h
          | dict d => simp [isBool] at h
      · rw [if_neg hk] at h
        exact absurd h (by simp)
    · rw [if_neg htf] at h
      exact absurd h (by simp)

theorem postEntryCheck_true_cases {q : PyVal}
    (h : postEntryCheck q = Except.ok true) :
    (pyDictGet q "type" = some (.str "true_false") ∧ tfWellFormed q) ∨
    (pyDictGet q "type" = some (.str "mcq") ∧
      ∃ c o, pyDictGet q "correct" = some c ∧
        pyDictGet q "options" = some o ∧ pyMem c o = Except.ok true) := by
  rw [postEntryCheck] at h
  cases ht : pySubscript q "type" with
  | error e => simp only [ht] at h; exact Except.noConfusion h
  | ok t =>
    simp only [ht] at h
    by_cases hm : pyEq t (.str "mcq") = true
    · rw [if_pos hm] at h
      have ht' : t = .str "mcq" := pyEq_str_right hm
      subst ht'
      right
      refine ⟨pySubscript_ok_iff.mp ht, ?_⟩
      by_cases hk : pyHasKey q "options" = true
      · rw [if_pos hk] at h
        cases hc : pySubscript q "correct" with
        | error e => simp only [hc] at h; exact Except.noConfusion h
        | ok c =>
          simp only [hc] at h
          cases ho : pySubscript q "options" with
          | error e => simp only [ho] at h; exact Except.noConfusion h
          | ok o =>
            simp only [ho] at h
            cases hmem : pyMem c o with
            | error e => simp only [hmem] at h; exact Except.noConfusion h
            | ok m =>
              simp only [hmem] at h
              cases m with
              | true =>
                exact ⟨c, o, pySubscript_ok_iff.mp hc,
                  pySubscript_ok_iff.mp ho, hmem⟩
              | false =>
                rw [if_neg (by simp)] at h
                obtain ⟨htb, _⟩ := postTFBranch_true h
                rw [pySubscript_ok_iff.mp ht] at htb
                exact absurd (Option.some.injEq _ _ ▸ htb) (by simp)
      · rw [if_neg hk] at h
        obtain ⟨htb, _⟩ := postTFBranch_true h
        rw [pySubscript_ok_iff.mp ht] at htb
        exact absurd (Option.some.injEq _ _ ▸ htb) (by simp)
    · rw [if_neg hm] at h
      exact Or.inl (postTFBranch_true h)


/-! ## Rational bridging lemmas for the performance bands -/

theorem le_half_iff (s t : Nat) : ((s : ℚ) ≤ (t : ℚ) * 0.5) ↔ 2 * s ≤ t := by
  constructor
  · intro h
    qify
    norm_num at h ⊢
    linarith
  · intro h
    qify at h
    norm_num
    linarith

theorem le_fourfifths_iff (s t : Nat) :
    ((s : ℚ) ≤ (t : ℚ) * 0.8) ↔ 5 * s ≤ 4 * t := by
  constructor
  · intro h
    qify
    norm_num at h ⊢
    linarith
  · intro h
    qify at h
    norm_num
    linarith

/-! ## Claim theorems -/

/-- C1.  The claim states that both scoring paths compare an MCQ answer
against the option text stored under the question's correct key.  The
post-learning path does not: it compares the recorded answer against the
raw `correct` field.  At the failing input - the single post-learning MCQ
`exPostMCQ` (correct key `"a"`, option text `"Paris"`) with the
fully-correct answer record `exAnsParis` - the question passes the
validation filter, the option text under the correct key is exactly the
recorded answer `"Paris"`, yet the computed score is `0` instead of the
claimed `1`, because `"Paris"` is compared against `"a"`.  The same
question and record in the pre-learning schema score `1`, confirming that
only the post-learning path diverges. -/
theorem c1_post_scoring_compares_key :
    postFilterBatch [exPostMCQ] = Except.ok [exPostMCQ] ∧
    preCorrect exPostMCQ = some (.str "Paris") ∧
    exAnsParis 0 = some (.str "Paris") ∧
    scorePost [exPostMCQ] exAnsParis = 0 ∧
    scorePre [exPreMCQ] exAnsParis = 1 :=
  ⟨rfl, rfl, rfl, rfl, rfl⟩

/-- C2 counterexample.  The post-learning filter retains the `mcq` entry
`exStrOpts`, whose `options` field is the string `"abcd"` (Python substring
membership accepts `"a" in "abcd"`), yet the entry has no options mapping
at all, so the claimed invariant "every retained MCQ has its correct-answer
key present in its own options mapping" fails for it. -/
theorem c2_counterexample :
    postFilterBatch [exStrOpts] = Except.ok [exStrOpts] ∧
    ¬ mcqWellFormed exStrOpts := by
  refine ⟨rfl, ?_⟩
  rintro ⟨opts, k, hopts, -, -⟩
  simp [exStrOpts, pyDictGet, List.lookup] at hopts

/-- Entries accepted by the pre-learning filter satisfy the spec's MCQ
invariant: their `options` field is a dictionary and their `correct` field
is one of its keys. -/
theorem preValid_mcqWellFormed {q : PyVal} (h : preValid q = true) :
    mcqWellFormed q := by
  cases q with
  | dict fs =>
    rw [preValid] at h
    cases hmcq : fs.lookup "mcq" with
    | none => rw [hmcq] at h; exact Bool.noConfusion h
    | some m =>
      rw [hmcq] at h
      cases m with
      | str a =>
        cases hopt : fs.lookup "options" with
        | none => rw [hopt] at h; exact Bool.noConfusion h
        | some o =>
          rw [hopt] at h
          cases o with
          | dict opts =>
            cases hcor : fs.lookup "correct" with
            | none => rw [hcor] at h; exact Bool.noConfusion h
            | some c =>
              rw [hcor] at h
              have h2 : opts.any (fun kv => pyEq c (.str kv.1)) = true := h
              obtain ⟨kv, hkv, hpe⟩ := List.any_eq_true.mp h2
              have hc : c = .str kv.1 := pyEq_str_right hpe
              exact ⟨opts, kv.1, by simp [pyDictGet, hopt],
                by simp [pyDictGet, hcor, hc], kv.2, hkv⟩
          | str s => exact Bool.noConfusion h
          | bool b => exact Bool.noConfusion h
          | int n => exact Bool.noConfusion h
          | none => exact Bool.noConfusion h
          | list l => exact Bool.noConfusion h
      | bool b => exact Bool.noConfusion h
      | int n => exact Bool.noConfusion h
      | none => exact Bool.noConfusion h
      | list l => exact Bool.noConfusion h
      | dict d => exact Bool.noConfusion h
  | str s => exact Bool.noConfusion h
  | bool b => exact Bool.noConfusion h
  | int n => exact Bool.noConfusion h
  | none => exact Bool.noConfusion h
  | list l => exact Bool.noConfusion h

/-- C2 (amended).  The pre-learning filter guarantees the claimed invariant
in full: every retained entry has a dictionary `options` field whose keys
include the string `correct` field.  The post-learning filter guarantees
the boolean-`correct` invariant for retained `true_false` entries, and for
retained `mcq` entries guarantees key membership only when the `options`
field actually is a dictionary.  Both retained sequences are
order-preserving subsequences of the parsed batch, entries being dropped,
never repaired. -/
theorem c2_validation_filter (qs : List PyVal) :
    ((qs.filter preValid).Sublist qs ∧
      ∀ q ∈ qs.filter preValid, mcqWellFormed q) ∧
    (∀ v, postFilterBatch qs = Except.ok v →
      v.Sublist qs ∧ ∀ q ∈ v,
        (pyDictGet q "type" = some (.str "true_false") → tfWellFormed q) ∧
        (pyDictGet q "type" = some (.str "mcq") →
          ∀ opts, pyDictGet q "options" = some (.dict opts) →
            ∃ k, pyDictGet q "correct" = some (.str k) ∧
              ∃ val, (k, val) ∈ opts)) := by
  constructor
  · exact ⟨List.filter_sublist qs,
      fun q hq => preValid_mcqWellFormed (List.of_mem_filter hq)⟩
  · intro v hv
    obtain ⟨hsub, hmem⟩ := postFilterBatch_ok hv
    refine ⟨hsub, ?_⟩
    intro q hq
    have hck := hmem q hq
    rcases postEntryCheck_true_cases hck with ⟨hty, htf⟩ | ⟨hty, c, o, hc, ho, hpm⟩
    · constructor
      · intro _; exact htf
      · intro hmcq
        rw [hty] at hmcq
        exact absurd (Option.some.injEq _ _ ▸ hmcq) (by simp)
    · constructor
      · intro htf
        rw [hty] at htf
        exact absurd (Option.some.injEq _ _ ▸ htf) (by simp)
      · intro _ opts hopts
        rw [ho] at hopts
        have ho' : o = .dict opts := by
          simpa using hopts
        subst ho'
        rw [pyMem] at hpm
        simp only [Except.ok.injEq] at hpm
        obtain ⟨kv, hkv, hpe⟩ := List.any_eq_true.mp hpm
        have hc' : c = .str kv.1 := pyEq_str_right hpe
        subst hc'
        exact ⟨kv.1, hc, kv.2, by simpa using hkv⟩

/-- C2 witness.  The amended theorem applied to the concrete batches
`[exPreMCQ]` (pre-learning) and `[exTF]` (post-learning), discharging the
`postFilterBatch` hypothesis by evaluation. -/
theorem c2_validation_filter_witness :
    mcqWellFormed exPreMCQ ∧ tfWellFormed exTF := by
  have hpre := (c2_validation_filter [exPreMCQ]).1.2 exPreMCQ (by
    show exPreMCQ ∈ List.filter preValid [exPreMCQ]
    simp [List.mem_filter]
    rfl)
  have hpost := ((c2_validation_filter [exTF]).2 [exTF] rfl).2 exTF (by simp)
  exact ⟨hpre, hpost.1 rfl⟩

/-- C3.  The claim states that in both paths each malformed entry is
individually discarded without aborting validation of the rest, and that an
all-malformed batch yields an empty retained set plus a warning.  In the
post-learning path this fails: the entry `exNoType` (no `type` field) makes
the filtering comprehension raise `KeyError`, which the generic handler
turns into an empty result with the generic error signal, discarding the
perfectly valid entry `exTF` that the same batch contains (alone, `exTF` is
retained).  Moreover an all-malformed batch that does not raise (`exEssay`)
yields an empty set with no warning at all, while the pre-learning path
does warn on its all-malformed batches. -/
theorem c3_post_batch_aborts :
    generate_post_learning_quiz (Except.ok [exTF, exNoType]) =
      ([], some UiMsg.errorGeneric) ∧
    postEntryCheck exTF = Except.ok true ∧
    generate_post_learning_quiz (Except.ok [exTF]) = ([exTF], Option.none) ∧
    generate_post_learning_quiz (Except.ok [exEssay]) = ([], Option.none) ∧
    fetch_questions (Except.ok [exNoType]) = ([], some UiMsg.warning) :=
  ⟨rfl, rfl, rfl, rfl, rfl⟩

/-- C4.  Performance-level derivation: with score `s` out of total `t`, the
level is `Beginner` exactly on `s ≤ 0.5 t`, `Intermediate` exactly on
`0.5 t < s ≤ 0.8 t`, and `Advanced` exactly on `0.8 t < s`; both band
boundaries are inclusive from below, so 50 percent exactly is `Beginner`
and 80 percent exactly is `Intermediate`. -/
theorem c4_performance_level_bands (s t : Nat) :
    (performance_level s t = "Beginner" ↔ (s : ℚ) ≤ (t : ℚ) * 0.5) ∧
    (performance_level s t = "Intermediate" ↔
      (t : ℚ) * 0.5 < s ∧ (s : ℚ) ≤ (t : ℚ) * 0.8) ∧
    (performance_level s t = "Advanced" ↔ (t : ℚ) * 0.8 < s) := by
  have hhalf : (0 : ℚ) ≤ (t : ℚ) := Nat.cast_nonneg t
  unfold performance_level
  split_ifs with h1 h2
  · refine ⟨iff_of_true rfl h1, iff_of_false (by decide) ?_,
      iff_of_false (by decide) ?_⟩
    · rintro ⟨hlt, -⟩
      exact absurd h1 (not_le.mpr hlt)
    · intro hlt
      have : (t : ℚ) * 0.5 ≤ (t : ℚ) * 0.8 := by linarith
      exact absurd h1 (not_le.mpr (lt_of_le_of_lt this hlt))
  · exact ⟨iff_of_false (by decide) h1,
      iff_of_true rfl ⟨not_le.mp h1, h2⟩,
      iff_of_false (by decide) (fun hlt => absurd h2 (not_le.mpr hlt))⟩
  · exact ⟨iff_of_false (by decide) h1,
      iff_of_false (by decide) (fun hc => absurd hc.2 h2),
      iff_of_true rfl (not_le.mp h2)⟩

/-- C4 witness.  The bands applied at the spec's own boundary examples:
exactly 50 percent is Beginner, exactly 80 percent Intermediate, above 80
percent Advanced (here 5 of 10, 8 of 10, 9 of 10). -/
theorem c4_performance_level_bands_witness :
    performance_level 5 10 = "Beginner" ∧
    performance_level 8 10 = "Intermediate" ∧
    performance_level 9 10 = "Advanced" :=
  ⟨(c4_performance_level_bands 5 10).1.mpr (by norm_num),
   (c4_performance_level_bands 8 10).2.1.mpr (by norm_num),
   (c4_performance_level_bands 9 10).2.2.mpr (by norm_num)⟩

/-- C6 counterexample.  The claim states the failure carries the status.
It does not: two responses that differ only in their (distinct, non-200)
status codes produce identical results, the fixed message
`"Failed to fetch content"`, so the returned error determines no status. -/
theorem c6_counterexample :
    scrape_course ⟨404, Option.none, Option.none⟩ =
      scrape_course ⟨500, Option.none, Option.none⟩ ∧
    scrape_course ⟨404, Option.none, Option.none⟩ =
      (Option.none, some "Failed to fetch content") :=
  ⟨rfl, rfl⟩

/-- C6 (amended).  A non-200 response makes `scrape_course` return no
content together with the fixed error message (which does not include the
status); a 200 response whose page lacks both target regions yields a
`CourseContent` with two empty lists and no error. -/
theorem c6_scrape_course_failure_modes (r : HttpResponse) :
    (r.status_code ≠ 200 →
      scrape_course r = (Option.none, some "Failed to fetch content")) ∧
    (r.status_code = 200 → r.learnItems = Option.none →
      r.skillItems = Option.none →
      scrape_course r = (some ⟨[], []⟩, Option.none)) := by
  constructor
  · intro h
    simp [scrape_course, h]
  · intro h h1 h2
    simp [scrape_course, h, h1, h2]

/-- C6 witness.  The amended theorem applied to a 500 response and to a 200
response with both regions absent. -/
theorem c6_scrape_course_failure_modes_witness :
    scrape_course ⟨500, Option.none, Option.none⟩ =
      (Option.none, some "Failed to fetch content") ∧
    scrape_course ⟨200, Option.none, Option.none⟩ =
      (some ⟨[], []⟩, Option.none) :=
  ⟨(c6_scrape_course_failure_modes _).1 (by decide),
   (c6_scrape_course_failure_modes _).2 rfl rfl rfl⟩

/-- C9.  The claim states that each submission appends exactly one
`ScoreResult` and nothing else does.  In the code the append lives in the
results-display block, which executes on every script rerun while
`quiz_submitted` is set: the submitting run appends one entry, and the very
next rerun with no user action appends a second identical entry.  From a
fresh one-question state, one submission followed by one idle rerun leaves
two history entries. -/
theorem c9_history_appended_per_rerun :
    (stepQuizTab 0 ⟨some [exPreMCQ], fun _ => Option.none, false,
        Option.none, []⟩ exSel Event.submit).quizzes = [⟨0, 1, 1⟩] ∧
    (stepQuizTab 0 (stepQuizTab 0 ⟨some [exPreMCQ], fun _ => Option.none,
        false, Option.none, []⟩ exSel Event.submit) exSel
        Event.idle).quizzes = [⟨0, 1, 1⟩, ⟨0, 1, 1⟩] :=
  ⟨rfl, rfl⟩



/-- C5 counterexample.  The claim states a second submit action after the
first changes no session state.  From the already-submitted one-question
state `exSubmitted`, a further submit-click run leaves the stored score and
the guard alone but still appends another history entry in the results
block, so the session state does change. -/
theorem c5_counterexample :
    stepQuizTab 0 exSubmitted exSel Event.submit ≠ exSubmitted :=
  fun h => absurd (congrArg (fun st => st.quizzes.length) h) (by decide)

/-- C5 (amended).  Submission is idempotent per QuizSet as far as scoring
state is concerned: once `quiz_submitted` is set, a further submit action is
indistinguishable from a plain rerun - the guard stays set, no re-scoring
happens and the stored score is unchanged (though each such rerun still
appends a history entry in the results block).  Generating a new QuizSet
with a non-empty validated batch resets the guard and replaces the
AnswerRecord, every index beyond the new quiz being unanswered, so the new
set can be submitted once again. -/
theorem c5_submit_idempotent (today : Nat) (s : Session) (sel : Nat → PyVal) :
    (s.quiz_submitted = true →
      stepQuizTab today s sel Event.submit = stepQuizTab today s sel Event.idle ∧
      (stepQuizTab today s sel Event.submit).last_quiz_score =
        s.last_quiz_score ∧
      (stepQuizTab today s sel Event.submit).quiz_submitted = true) ∧
    (∀ raw, (raw.filter preValid).isEmpty = false →
      (stepQuizTab today s sel (Event.generate raw)).quiz_submitted = false ∧
      (stepQuizTab today s sel (Event.generate raw)).current_quiz =
        some (raw.filter preValid) ∧
      ∀ i, (raw.filter preValid).length ≤ i →
        (stepQuizTab today s sel (Event.generate raw)).selected_answers i =
          Option.none) := by
  constructor
  · intro h
    cases hq : s.current_quiz with
    | none => simp [stepQuizTab, hq, h]
    | some qs =>
      by_cases hqe : qs.isEmpty
      · simp [stepQuizTab, hq, hqe, h]
      · simp [stepQuizTab, hq, hqe, h, isSubmit]
  · intro raw hraw
    refine ⟨?_, ?_, ?_⟩
    · simp [stepQuizTab, hraw, isSubmit]
    · simp [stepQuizTab, hraw, isSubmit]
    · intro i hi
      simp [stepQuizTab, hraw, isSubmit, Nat.not_lt.mpr hi]

/-- C5 witness.  The amended theorem applied to the concrete submitted
state `exSubmitted` (score stays `some 1`) and to regenerating from the
one-question batch `[exPreMCQ]` (the guard resets). -/
theorem c5_submit_idempotent_witness :
    (stepQuizTab 0 exSubmitted exSel Event.submit).last_quiz_score = some 1 ∧
    (stepQuizTab 0 exSubmitted exSel
      (Event.generate [exPreMCQ])).quiz_submitted = false := by
  have h := c5_submit_idempotent 0 exSubmitted exSel
  exact ⟨(h.1 rfl).2.1, (h.2 [exPreMCQ] (by decide)).1⟩

/-- C10.  In both scoring loops an index with no recorded answer never
counts: the `.get` lookup yields `None`, which Python equality rejects
against the string an MCQ comparison uses and against the boolean a
TrueFalse comparison uses (hypothesis `answerTyped`, the claim's own typing
of correct answers); consequently the score of an all-unanswered record is
`0`, and any computed score is at most the number of questions (the lower
bound `0` is inherent in the count). -/
theorem c10_unanswered_never_counts (qs : List PyVal)
    (ans : Nat → Option PyVal) (hty : ∀ q ∈ qs, answerTyped q = true) :
    scorePre qs ans ≤ qs.length ∧ scorePost qs ans ≤ qs.length ∧
    (∀ p : Nat × PyVal, p ∈ qs.enum → ans p.1 = Option.none →
      preHit ans p = false ∧ postHit ans p = false) ∧
    ((∀ i, ans i = Option.none) →
      scorePre qs ans = 0 ∧ scorePost qs ans = 0) := by
  have hidx : ∀ p : Nat × PyVal, p ∈ qs.enum → ans p.1 = Option.none →
      preHit ans p = false ∧ postHit ans p = false := by
    intro p hp hnone
    have hq : p.2 ∈ qs := List.snd_mem_of_mem_enum hp
    have hty2 := hty p.2 hq
    rw [answerTyped, Bool.and_eq_true] at hty2
    obtain ⟨h1, h2⟩ := hty2
    constructor
    · rw [preHit]
      cases hpc : preCorrect p.2 with
      | none => rfl
      | some c =>
        rw [hpc] at h1
        cases c with
        | str a => rw [hnone]; rfl
        | bool b => exact Bool.noConfusion h1
        | int n => exact Bool.noConfusion h1
        | none => exact Bool.noConfusion h1
        | list l => exact Bool.noConfusion h1
        | dict d => exact Bool.noConfusion h1
    · rw [postHit]
      cases hpc : pyDictGet p.2 "correct" with
      | none => rfl
      | some c =>
        rw [hpc] at h2
        cases c with
        | str a => rw [hnone]; rfl
        | bool b => rw [hnone]; rfl
        | int n => exact Bool.noConfusion h2
        | none => exact Bool.noConfusion h2
        | list l => exact Bool.noConfusion h2
        | dict d => exact Bool.noConfusion h2
  refine ⟨?_, ?_, hidx, ?_⟩
  · have h := List.countP_le_length (preHit ans) (l := qs.enum)
    rwa [List.enum_length] at h
  · have h := List.countP_le_length (postHit ans) (l := qs.enum)
    rwa [List.enum_length] at h
  · intro hall
    constructor
    · exact List.countP_eq_zero.mpr
        (fun p hp => by simp [(hidx p hp (hall p.1)).1])
    · exact List.countP_eq_zero.mpr
        (fun p hp => by simp [(hidx p hp (hall p.1)).2])

/-- C10 witness.  The theorem applied to the one-question quiz
`[exPreMCQ]` with the empty answer record, the typing hypothesis being
discharged by evaluation. -/
theorem c10_unanswered_never_counts_witness :
    scorePre [exPreMCQ] (fun _ => Option.none) = 0 ∧
    scorePost [exPreMCQ] (fun _ => Option.none) = 0 := by
  have h := c10_unanswered_never_counts [exPreMCQ] (fun _ => Option.none)
    (by decide)
  exact h.2.2.2 (fun i => rfl)



theorem char_isUpper_iff (c : Char) :
    c.isUpper = true ↔ 65 ≤ c.toNat ∧ c.toNat ≤ 90 := by
  simp [Char.isUpper, UInt32.le_def, BitVec.le_def, Char.toNat, UInt32.toNat]

theorem char_isUpper_eq (c : Char) :
    c.isUpper = decide (65 ≤ c.toNat ∧ c.toNat ≤ 90) := by
  rw [Bool.eq_iff_iff]
  simp [char_isUpper_iff]

theorem char_isLower_iff (c : Char) :
    c.isLower = true ↔ 97 ≤ c.toNat ∧ c.toNat ≤ 122 := by
  simp [Char.isLower, UInt32.le_def, BitVec.le_def, Char.toNat, UInt32.toNat]

theorem char_ofNat_toNat {n : Nat} (h : n.isValidChar) :
    (Char.ofNat n).toNat = n := by
  simp [Char.ofNat, h, Char.ofNatAux, Char.toNat, UInt32.toNat, UInt32.ofNatCore]

theorem toLower_of_upper {c : Char} (h1 : 65 ≤ c.toNat) (h2 : c.toNat ≤ 90) :
    (Char.toLower c).toNat = c.toNat + 32 := by
  rw [Char.toLower]
  simp only [ge_iff_le]
  rw [if_pos ⟨h1, h2⟩]
  exact char_ofNat_toNat (Or.inl (by omega))

theorem toLower_fix {c : Char} (h : c.isUpper = false) : Char.toLower c = c := by
  rw [char_isUpper_eq, decide_eq_false_iff_not] at h
  rw [Char.toLower]
  simp only [ge_iff_le]
  exact if_neg h

theorem toLower_not_upper (c : Char) : (Char.toLower c).isUpper = false := by
  by_cases h : 65 ≤ c.toNat ∧ c.toNat ≤ 90
  · rw [char_isUpper_eq, toLower_of_upper h.1 h.2, decide_eq_false_iff_not]
    omega
  · have hf : c.isUpper = false := by
      rw [char_isUpper_eq, decide_eq_false_iff_not]
      exact h
    rw [toLower_fix hf]
    exact hf

theorem isLower_of_alpha_not_upper {c : Char} (ha : c.isAlpha = true)
    (hu : c.isUpper = false) : c.isLower = true := by
  rw [Char.isAlpha, hu] at ha
  simpa using ha


theorem rawSplit_ne_nil (l : List Char) : rawSplit l ≠ [] := by
  cases l with
  | nil => simp [rawSplit]
  | cons c cs =>
    rw [rawSplit]
    by_cases h : isWordChar c
    · rw [if_pos h]
      cases rawSplit cs <;> simp
    · rw [if_neg h]
      simp

theorem rawSplit_chars {l : List Char} {w : List Char} {c : Char}
    (hw : w ∈ rawSplit l) (hc : c ∈ w) :
    c ∈ l ∧ isWordChar c = true := by
  induction l generalizing w with
  | nil =>
    simp [rawSplit] at hw
    subst hw
    exact absurd hc (List.not_mem_nil c)
  | cons a as ih =>
    rw [rawSplit] at hw
    by_cases ha : isWordChar a
    · rw [if_pos ha] at hw
      cases hr : rawSplit as with
      | nil => exact absurd hr (rawSplit_ne_nil as)
      | cons g gs =>
        rw [hr] at hw
        rcases List.mem_cons.mp hw with hw | hw
        · subst hw
          rcases List.mem_cons.mp hc with hc | hc
          · rw [hc]
            exact ⟨List.mem_cons_self a as, ha⟩
          · have := ih (w := g) (by rw [hr]; exact List.mem_cons_self g gs) hc
            exact ⟨List.mem_cons_of_mem a this.1, this.2⟩
        · have := ih (w := w) (by rw [hr]; exact List.mem_cons_of_mem g hw) hc
          exact ⟨List.mem_cons_of_mem a this.1, this.2⟩
    · rw [if_neg ha] at hw
      rcases List.mem_cons.mp hw with hw | hw
      · subst hw
        exact absurd hc (List.not_mem_nil c)
      · have := ih hw hc
        exact ⟨List.mem_cons_of_mem a this.1, this.2⟩

theorem tokenize_sound {l w : List Char} (hw : w ∈ tokenize l) :
    w ≠ [] ∧ ∀ c ∈ w, c ∈ l ∧ isWordChar c = true := by
  rw [tokenize] at hw
  have h1 := List.of_mem_filter hw
  have h2 := List.mem_of_mem_filter hw
  refine ⟨by simpa using h1, fun c hc => rawSplit_chars h2 hc⟩

theorem rawSplit_append_word {w m : List Char}
    (hw : ∀ c ∈ w, isWordChar c = true) {g : List Char} {gs : List (List Char)}
    (hm : rawSplit m = g :: gs) :
    rawSplit (w ++ m) = (w ++ g) :: gs := by
  induction w with
  | nil => simpa using hm
  | cons a as ih =>
    have ha : isWordChar a = true := hw a (List.mem_cons_self a as)
    have has : ∀ c ∈ as, isWordChar c = true :=
      fun c hc => hw c (List.mem_cons_of_mem a hc)
    rw [List.cons_append, rawSplit, if_pos ha, ih has]
    rfl

theorem rawSplit_sep {c : Char} (m : List Char) (hc : isWordChar c = false) :
    rawSplit (c :: m) = [] :: rawSplit m := by
  rw [rawSplit, if_neg (by simp [hc])]

theorem tokenize_sjoin {T : List (List Char)}
    (h : ∀ w ∈ T, w ≠ [] ∧ ∀ c ∈ w, isWordChar c = true) :
    tokenize (sjoin T) = T := by
  induction T with
  | nil => rfl
  | cons w ws ih =>
    have hw := h w (List.mem_cons_self w ws)
    have hwne : (!w.isEmpty) = true := by simpa using hw.1
    cases ws with
    | nil =>
      have hsp := rawSplit_append_word hw.2 (show rawSplit [] = [] :: [] from rfl)
      rw [List.append_nil] at hsp
      rw [sjoin, tokenize, hsp, List.filter_cons, if_pos hwne]
      rfl
    | cons w2 rest =>
      have hsep : rawSplit (' ' :: sjoin (w2 :: rest)) =
          [] :: rawSplit (sjoin (w2 :: rest)) :=
        rawSplit_sep _ (by decide)
      cases hr : rawSplit (sjoin (w2 :: rest)) with
      | nil => exact absurd hr (rawSplit_ne_nil _)
      | cons g gs =>
        rw [hr] at hsep
        have hmain := rawSplit_append_word hw.2 hsep
        rw [List.append_nil] at hmain
        have hrest : ∀ x ∈ w2 :: rest, x ≠ [] ∧ ∀ c ∈ x, isWordChar c = true :=
          fun x hx => h x (List.mem_cons_of_mem w hx)
        have ihr := ih hrest
        rw [tokenize, hr] at ihr
        rw [sjoin, tokenize, hmain, List.filter_cons, if_pos hwne, ihr]
        simp


theorem sjoin_chars {T : List (List Char)} {c : Char} (h : c ∈ sjoin T) :
    c = ' ' ∨ ∃ w ∈ T, c ∈ w := by
  induction T with
  | nil => exact absurd h (List.not_mem_nil c)
  | cons w ws ih =>
    cases ws with
    | nil => exact Or.inr ⟨w, List.mem_cons_self w [], h⟩
    | cons w2 rest =>
      rw [sjoin] at h
      case x_1 => simp
      rcases List.mem_append.mp h with h | h
      · exact Or.inr ⟨w, List.mem_cons_self w _, h⟩
      · rcases List.mem_cons.mp h with h | h
        · exact Or.inl h
        · rcases ih h with h | ⟨x, hx, hcx⟩
          · exact Or.inl h
          · exact Or.inr ⟨x, List.mem_cons_of_mem w hx, hcx⟩

theorem pyLower_fix {l : List Char} (h : ∀ c ∈ l, c.isUpper = false) :
    pyLower l = l := by
  induction l with
  | nil => rfl
  | cons c cs ih =>
    rw [pyLower, List.map_cons,
      toLower_fix (h c (List.mem_cons_self c cs))]
    have := ih (fun x hx => h x (List.mem_cons_of_mem c hx))
    rw [pyLower] at this
    rw [this]

theorem pyLower_chars {l : List Char} {c : Char} (h : c ∈ pyLower l) :
    c.isUpper = false := by
  rw [pyLower] at h
  obtain ⟨d, -, rfl⟩ := List.mem_map.mp h
  exact toLower_not_upper d

theorem cleanKeep_token_facts {w : List Char} (h : cleanKeep w = true) :
    w ∉ stop_words ∧ pyIsAlpha w = true ∧ w ≠ [] ∧
      ∀ c ∈ w, c.isAlpha = true ∧ isWordChar c = true := by
  rw [cleanKeep, Bool.and_eq_true] at h
  obtain ⟨hstop, halpha⟩ := h
  have hne : w ≠ [] := by
    rw [pyIsAlpha, Bool.and_eq_true] at halpha
    simpa using halpha.1
  have hall : ∀ c ∈ w, c.isAlpha = true := by
    rw [pyIsAlpha, Bool.and_eq_true] at halpha
    exact fun c hc => List.all_eq_true.mp halpha.2 c hc
  refine ⟨?_, halpha, hne, fun c hc => ⟨hall c hc, ?_⟩⟩
  · intro hmem
    rw [Bool.not_eq_true'] at hstop
    exact absurd (List.elem_eq_true_of_mem hmem) (by simp [List.contains] at hstop ⊢; exact hstop)
  · rw [isWordChar, Char.isAlphanum, hall c hc]
    rfl

/-- C7.  The normalizer returns exactly the space-join of the tokens of the
lowercased input that survive the stop-word and alphabetic filter; that
retained token sequence is an order-preserving subsequence of the input's
token sequence, and every retained token is alphabetic, absent from the
stop-word set and wholly lowercase.  The empty input yields the empty
output. -/
theorem c7_clean_text_shape (s : List Char) :
    clean_text s = sjoin ((tokenize (pyLower s)).filter cleanKeep) ∧
    ((tokenize (pyLower s)).filter cleanKeep).Sublist
      (tokenize (pyLower s)) ∧
    (∀ w ∈ (tokenize (pyLower s)).filter cleanKeep,
      w ∉ stop_words ∧ pyIsAlpha w = true ∧
        ∀ c ∈ w, c.isLower = true) ∧
    clean_text [] = [] := by
  refine ⟨rfl, List.filter_sublist _, ?_, rfl⟩
  intro w hw
  have hkeep := cleanKeep_token_facts (List.of_mem_filter hw)
  have htok := tokenize_sound (List.mem_of_mem_filter hw)
  refine ⟨hkeep.1, hkeep.2.1, ?_⟩
  intro c hc
  have hup : c.isUpper = false := pyLower_chars (htok.2 c hc).1
  exact isLower_of_alpha_not_upper (hkeep.2.2.2 c hc).1 hup

/-- C8.  The normalizer is idempotent: its output consists of non-empty,
all-lowercase alphabetic tokens joined by single spaces, so lowercasing the
output changes nothing, re-tokenizing it recovers exactly the same token
sequence, and the filter retains all of it. -/
theorem c8_clean_text_idempotent (s : List Char) :
    clean_text (clean_text s) = clean_text s := by
  have hT : ∀ w ∈ (tokenize (pyLower s)).filter cleanKeep,
      cleanKeep w = true ∧ w ≠ [] ∧ (∀ c ∈ w, isWordChar c = true) ∧
        ∀ c ∈ w, c.isUpper = false := by
    intro w hw
    have hkeep := cleanKeep_token_facts (List.of_mem_filter hw)
    have htok := tokenize_sound (List.mem_of_mem_filter hw)
    exact ⟨List.of_mem_filter hw, hkeep.2.2.1,
      fun c hc => (hkeep.2.2.2 c hc).2,
      fun c hc => pyLower_chars (htok.2 c hc).1⟩
  show clean_text (sjoin ((tokenize (pyLower s)).filter cleanKeep)) = _
  rw [clean_text]
  have h1 : pyLower (sjoin ((tokenize (pyLower s)).filter cleanKeep)) =
      sjoin ((tokenize (pyLower s)).filter cleanKeep) := by
    apply pyLower_fix
    intro c hc
    rcases sjoin_chars hc with hc | ⟨w, hw, hcw⟩
    · rw [hc]; decide
    · exact (hT w hw).2.2.2 c hcw
  rw [h1]
  have h2 : tokenize (sjoin ((tokenize (pyLower s)).filter cleanKeep)) =
      (tokenize (pyLower s)).filter cleanKeep :=
    tokenize_sjoin (fun w hw => ⟨(hT w hw).2.1, (hT w hw).2.2.1⟩)
  rw [h2]
  rw [List.filter_eq_self.mpr (fun w hw => (hT w hw).1)]
  rfl

end MindShift
